import Mathlib

/-!
A verification development for the "Repo Biome" repository visualiser
(three JavaScript source files).  The program renders a deterministic
fractal tree from repository metrics.  We give a shallow embedding of its
core numeric components:

* `SeededRandom` — the linear-congruential generator (src/unnamed/part_000
  lines 4-13).  JavaScript stores the seed in a double; on integer seeds
  the arithmetic is exact, and the `%` operator is the remainder with the
  sign of the dividend, which is `Int.tmod`.
* `calculateHealth` — the step function of days since last push
  (lines 464-475).  An unparseable date makes the days value `NaN`; every
  `<` comparison against `NaN` is false in JavaScript, so we embed the
  days value as `Option ℚ` with `none` playing the role of `NaN`.
* the commit-count → recursion-depth mapping of `drawTree` (line 678).
* `drawBranch` — the recursive branch renderer (lines 479-635), embedded
  as a pure function from render parameters and the generator state to the
  list of branch-geometry records it draws, threading the generator state
  exactly in the order the source consumes it.
* `hexToHsl` / `hslToHex` (lines 388-431) over exact rationals.
* the particle lifecycle (`Particle`, `Firefly`, `FallingLeaf`,
  lines 16-147) and the per-frame update-filter-render step of
  `animateParticles` (lines 846-909).
* the repository-switch paths `loadRepo` (lines 965-977) and the new-repo
  branch of `handleLoadCustomRepo` (lines 1004-1020).

Transcendental operations (`Math.cos`, `Math.sin`, `Math.PI`) are kept
abstract as a `Trig` parameter: no control-flow decision of the source
depends on them, so every theorem below holds for every interpretation.
-/

/-! ## SeededRandom (src/unnamed/part_000 lines 4-13) -/

/-- One step of the generator: `this.seed = (this.seed * 9301 + 49297) % 233280`.
JavaScript `%` keeps the sign of the dividend, i.e. `Int.tmod`. -/
def SeededRandom.nextState (s : ℤ) : ℤ :=
  Int.tmod (s * 9301 + 49297) 233280

/-- The value returned by `next()`: `this.seed / 233280` after the update. -/
def SeededRandom.nextVal (s : ℤ) : ℚ :=
  (SeededRandom.nextState s : ℚ) / 233280

/-- The state after `n` calls to `next()` starting from seed `s`. -/
def SeededRandom.stateAt (s : ℤ) : ℕ → ℤ
  | 0 => s
  | n + 1 => SeededRandom.nextState (SeededRandom.stateAt s n)

/-- The value returned by the `(n+1)`-st call to `next()` on a generator
constructed with seed `s`. -/
def SeededRandom.valAt (s : ℤ) (n : ℕ) : ℚ :=
  SeededRandom.nextVal (SeededRandom.stateAt s n)

/-- The master seed of `drawTree` (line 668): the sum of the character codes
of the repository full name. -/
def seedOfName (name : List Char) : ℤ :=
  (name.map (fun c => (c.toNat : ℤ))).sum

/-! ## calculateHealth (src/unnamed/part_000 lines 464-475) -/

/-- JavaScript `x < c` where `x` may be `NaN` (`none`): any comparison with
`NaN` is false. -/
def jsLt (x : Option ℚ) (c : ℚ) : Bool :=
  match x with
  | none => false
  | some q => decide (q < c)

/-- The body of `calculateHealth` as a function of
`daysSinceLastPush = (now - lastPush) / (1000*60*60*24)`, which is `none`
when the date failed to parse (the `NaN` case). -/
def healthFromDays (d : Option ℚ) : ℚ :=
  if jsLt d 30 then 1
  else if jsLt d 90 then 4/5
  else if jsLt d 180 then 3/5
  else if jsLt d 365 then 2/5
  else 1/5

/-- `calculateHealth` on successfully parsed dates, with `now` and
`lastPush` as millisecond timestamps. -/
def calculateHealth (now lastPush : ℚ) : ℚ :=
  healthFromDays (some ((now - lastPush) / 86400000))

/-- Modelled from the spec (§4.2): the step function
`days ↦ (<30 : 1.0, <90 : 0.8, <180 : 0.6, <365 : 0.4, else 0.2)`. -/
def healthStep (days : ℚ) : ℚ :=
  if days < 30 then 1
  else if days < 90 then 4/5
  else if days < 180 then 3/5
  else if days < 365 then 2/5
  else 1/5

/-! ## Commit count → recursion depth (src/unnamed/part_000 line 678)

`maxDepth = Math.min(10, Math.max(4, Math.floor(Math.log10(c + 1) * 1.6)))`.
For an integer `m ≥ 1` and an integer `d ≥ 0` we have
`d ≤ 1.6 * log10 m ↔ 10 ^ (5 * d) ≤ m ^ 8` (raise `10 ^ (5*d/8) ≤ m` to the
8th power), so `⌊1.6 * log10 m⌋` is the number of exponents
`d ∈ [1, 16]` with `10 ^ (5*d) ≤ m ^ 8`, as long as that floor is at most
16; beyond 16 the count saturates at 16, which the `min 10` clamp makes
irrelevant.  This integer characterisation is the exact real value of the
expression; the double-precision `Math.log10` is correctly rounded and the
product `log10(m+1)*1.6` never lands on an integer for integer `m ≥ 2`
(that would need `m = 10^(5d/8)`), so the floor agrees. -/

/-- `⌊1.6 * log10 m⌋` for `m ≥ 1`, capped at 16. -/
def floorLog16 (m : ℕ) : ℕ :=
  ((List.range 17).countP (fun d => decide (10 ^ (5 * d) ≤ m ^ 8))) - 1

/-- The `maxDepth` computation of `drawTree` on a natural commit count. -/
def maxDepthOf (commitCount : ℕ) : ℕ :=
  min 10 (max 4 (floorLog16 (commitCount + 1)))

/-! ### Theorems: C2, C3, C4, C10 -/

theorem seededRandom_stateAt_add (s : ℤ) (m n : ℕ) :
    SeededRandom.stateAt s (m + n) =
      SeededRandom.stateAt (SeededRandom.stateAt s m) n := by
  induction n with
  | zero => rfl
  | succ k ih => simpa [SeededRandom.stateAt] using congrArg SeededRandom.nextState ih

theorem seededRandom_nextState_nonneg (s : ℤ) (hs : 0 ≤ s) :
    0 ≤ SeededRandom.nextState s ∧ SeededRandom.nextState s < 233280 := by
  unfold SeededRandom.nextState
  have hnum : (0 : ℤ) ≤ s * 9301 + 49297 := by positivity
  constructor
  · exact Int.tmod_nonneg _ hnum
  · have := Int.tmod_lt_of_pos (s * 9301 + 49297) (b := 233280) (by norm_num)
    simpa using this

theorem seededRandom_stateAt_nonneg (s : ℤ) (hs : 0 ≤ s) (n : ℕ) :
    0 ≤ SeededRandom.stateAt s n := by
  induction n with
  | zero => exact hs
  | succ k ih => exact (seededRandom_nextState_nonneg _ ih).1

/-- C2 counterexample: on the negative integer seed `-6` the first call to
`next()` returns `-6509 / 233280`, which is not in `[0, 1)`: the claim as
stated over every integer seed is false. -/
theorem seededRandom_c2_counterexample :
    ¬ (0 ≤ SeededRandom.nextVal (-6) ∧ SeededRandom.nextVal (-6) < 1) := by
  intro h
  have h0 := h.1
  have hstate : SeededRandom.nextState (-6) = -6509 := by decide
  have hneg : SeededRandom.nextVal (-6) < 0 := by
    unfold SeededRandom.nextVal
    rw [hstate]
    norm_num
  linarith

/-- C2 (amended): for every nonnegative integer seed, `next()` updates the
state to `(state * 9301 + 49297) mod 233280` (the nonnegative remainder),
returns a value in `[0, 1)`, every later value of the stream also lies in
`[0, 1)`, and two generators with equal seeds agree at every position. -/
theorem seededRandom_c2_spec (s : ℤ) (hs : 0 ≤ s) :
    SeededRandom.nextState s = (s * 9301 + 49297) % 233280 ∧
    (∀ n : ℕ, 0 ≤ SeededRandom.valAt s n ∧ SeededRandom.valAt s n < 1) ∧
    (∀ t : ℤ, s = t → ∀ n : ℕ, SeededRandom.valAt s n = SeededRandom.valAt t n) := by
  refine ⟨?_, ?_, ?_⟩
  · unfold SeededRandom.nextState
    have hnum : (0 : ℤ) ≤ s * 9301 + 49297 := by positivity
    rw [Int.tmod_eq_emod hnum (by norm_num)]
  · intro n
    have hstate := seededRandom_stateAt_nonneg s hs n
    have hb := seededRandom_nextState_nonneg _ hstate
    unfold SeededRandom.valAt SeededRandom.nextVal
    constructor
    · have hq : (0 : ℚ) ≤ (SeededRandom.nextState (SeededRandom.stateAt s n) : ℚ) := by
        exact_mod_cast hb.1
      exact div_nonneg hq (by norm_num)
    · rw [div_lt_one (by norm_num)]
      exact_mod_cast hb.2
  · rintro t rfl n
    rfl

/-- C2 witness: the amended statement applied at seed 7. -/
theorem seededRandom_c2_spec_witness :
    0 ≤ SeededRandom.valAt 7 0 ∧ SeededRandom.valAt 7 0 < 1 :=
  (seededRandom_c2_spec 7 (by norm_num)).2.1 0

/-- C3: `calculateHealth` is exactly the spec's step function of days since
push, with the stated boundary values: 1.0 at 29 days, 0.8 at 30 and at 89,
0.6 at 90, 0.2 at 1000. -/
theorem calculateHealth_c3_step :
    (∀ now lastPush : ℚ,
      calculateHealth now lastPush = healthStep ((now - lastPush) / 86400000)) ∧
    calculateHealth (29 * 86400000) 0 = 1 ∧
    calculateHealth (30 * 86400000) 0 = 4/5 ∧
    calculateHealth (89 * 86400000) 0 = 4/5 ∧
    calculateHealth (90 * 86400000) 0 = 3/5 ∧
    calculateHealth (1000 * 86400000) 0 = 1/5 := by
  refine ⟨?_, by norm_num [calculateHealth, healthFromDays, jsLt],
    by norm_num [calculateHealth, healthFromDays, jsLt],
    by norm_num [calculateHealth, healthFromDays, jsLt],
    by norm_num [calculateHealth, healthFromDays, jsLt],
    by norm_num [calculateHealth, healthFromDays, jsLt]⟩
  intro now lastPush
  simp only [calculateHealth, healthFromDays, healthStep, jsLt]
  simp

/-- C10: `calculateHealth` is total, its value is always one of
`1, 0.8, 0.6, 0.4, 0.2`; a future push date (negative days) gives `1.0`
and an unparseable date (`NaN` days, embedded as `none`) gives `0.2`. -/
theorem calculateHealth_c10_total :
    (∀ d : Option ℚ,
      healthFromDays d = 1 ∨ healthFromDays d = 4/5 ∨ healthFromDays d = 3/5 ∨
      healthFromDays d = 2/5 ∨ healthFromDays d = 1/5) ∧
    (∀ q : ℚ, q < 0 → healthFromDays (some q) = 1) ∧
    healthFromDays none = 1/5 := by
  refine ⟨?_, ?_, by norm_num [healthFromDays, jsLt]⟩
  · intro d
    unfold healthFromDays
    by_cases h1 : jsLt d 30 = true
    · simp [h1]
    · by_cases h2 : jsLt d 90 = true
      · simp [h1, h2]
      · by_cases h3 : jsLt d 180 = true
        · simp [h1, h2, h3]
        · by_cases h4 : jsLt d 365 = true
          · simp [h1, h2, h3, h4]
          · simp [h1, h2, h3, h4]
  · intro q hq
    have : jsLt (some q) 30 = true := by
      simp [jsLt]; linarith
    simp [healthFromDays, this]

/-- C10 witness: a push date five days in the future yields health 1.0,
and the `NaN` case yields 0.2. -/
theorem calculateHealth_c10_total_witness :
    healthFromDays (some (-5)) = 1 ∧ healthFromDays none = 1/5 :=
  ⟨calculateHealth_c10_total.2.1 (-5) (by norm_num),
   calculateHealth_c10_total.2.2⟩

/-- C4 counterexample: at 100000 commits the code computes
`⌊log10(100001) * 1.6⌋ = 8`, so `maxDepth = 8`, not the 10 the claim
states. -/
theorem maxDepthOf_c4_counterexample :
    maxDepthOf 100000 = 8 ∧ maxDepthOf 100000 ≠ 10 := by
  constructor <;> decide

theorem floorLog16_mono {m m' : ℕ} (h : m ≤ m') : floorLog16 m ≤ floorLog16 m' := by
  unfold floorLog16
  have hcount : (List.range 17).countP (fun d => decide (10 ^ (5 * d) ≤ m ^ 8)) ≤
      (List.range 17).countP (fun d => decide (10 ^ (5 * d) ≤ m' ^ 8)) := by
    apply List.countP_mono_left
    intro d _ hd
    simp only [decide_eq_true_eq] at hd ⊢
    exact le_trans hd (Nat.pow_le_pow_left h 8)
  omega

/-- C4 (amended): `maxDepth(commits)` is non-decreasing in the commit count
and always lies in `[4, 10]`; `maxDepth(0) = 4` and `maxDepth(100000) = 8`
(not 10 as the claim stated: depth 10 is first reached near 1.78 million
commits). -/
theorem maxDepthOf_c4_monotone_bounded :
    (∀ c c' : ℕ, c ≤ c' → maxDepthOf c ≤ maxDepthOf c') ∧
    (∀ c : ℕ, 4 ≤ maxDepthOf c ∧ maxDepthOf c ≤ 10) ∧
    maxDepthOf 0 = 4 ∧ maxDepthOf 100000 = 8 ∧ maxDepthOf 1778279 = 10 := by
  refine ⟨?_, ?_, by decide, by decide, by decide⟩
  · intro c c' hc
    unfold maxDepthOf
    have := floorLog16_mono (Nat.add_le_add_right hc 1)
    omega
  · intro c
    unfold maxDepthOf
    omega

/-- C4 witness: monotonicity applied at the concrete pair 234 ≤ 15234. -/
theorem maxDepthOf_c4_monotone_bounded_witness :
    maxDepthOf 234 ≤ maxDepthOf 15234 :=
  maxDepthOf_c4_monotone_bounded.1 234 15234 (by norm_num)

/-! ## drawBranch (src/unnamed/part_000 lines 479-635)

The recursive branch renderer, embedded as a pure function from the render
parameters and the generator state to the list of branch geometry records
it draws (one per productive invocation, in draw order) together with the
final generator state.  `Math.random` is never called here: every random
quantity comes from the seeded generator, consumed in exactly the source
order.  The transcendental `Math.cos` / `Math.sin` / `Math.PI` are
abstracted as a `Trig` record; no control-flow decision (the depth/length
guard, leaf decisions, branch counts) depends on them.  Style-only
computations (opacity, line width, gradient stops, shadow blur) consume no
generator state and are omitted. -/

/-- Abstract interpretation of `Math.cos`, `Math.sin`, `Math.PI`. -/
structure Trig where
  cos : ℚ → ℚ
  sin : ℚ → ℚ
  pi : ℚ

/-- The `metrics` object passed to `drawBranch`, with the destructuring
defaults of line 482-488. -/
structure BMetrics where
  commitDensity : ℚ := 1/2
  ageMultiplier : ℚ := 1
  sizeSpread : ℚ := 1/2
  windOffset : ℚ := 0
  glowIntensity : ℚ := 1

/-- The geometry one `drawBranch` invocation draws: the quadratic curve
from `(x, y)` through `(midX, midY)` to `(endX, endY)` at the swayed
angle. -/
structure BranchStep where
  x : ℚ
  y : ℚ
  midX : ℚ
  midY : ℚ
  endX : ℚ
  endY : ℚ
  swayedAngle : ℚ
  length : ℚ
  depth : ℕ

/-- `random.next()` as a state transformer: new state and returned value. -/
def rngNext (s : ℤ) : ℤ × ℚ :=
  (SeededRandom.nextState s, SeededRandom.nextVal s)

/-- Generator consumption of the leaf block (lines 541-587), entered when
`depth >= maxDepth - 2 && shouldDrawLeaf`: one draw for the leaf count when
`health > 0.6 && commitDensity > 0.5`; two draws (size, angle) for the
first leaf, four (size, angle, offsetX, offsetY) for a second leaf; one
final draw for the particle-emission roll.  The drawn values only style
the leaves and never feed back into the recursion. -/
def leafRngBlock (health commitDensity : ℚ) (rng : ℤ) : ℤ :=
  let stage1 :=
    if 3/5 < health ∧ 1/2 < commitDensity then
      ((rngNext rng).1, if 1/2 < (rngNext rng).2 then 2 else 1)
    else (rng, 1)
  let rngA := (rngNext (rngNext stage1.1).1).1
  let rngB :=
    if stage1.2 = 2 then
      (rngNext (rngNext (rngNext (rngNext rngA).1).1).1).1
    else rngA
  (rngNext rngB).1

/-- The branch-count choice (lines 593-605): trunk levels always split in
two; deeper levels roll the generator and pick 4, 3 or 2 children
depending on `commitDensity`. -/
def branchCountStep (commitDensity : ℚ) (depth : ℕ) (rng : ℤ) : ℤ × ℕ :=
  if depth < 2 then (rng, 2)
  else
    ((rngNext rng).1,
      if 7/10 < commitDensity ∧ 3/5 < (rngNext rng).2 then 4
      else if 2/5 < commitDensity ∧ 2/5 < (rngNext rng).2 then 3
      else 2)

mutual

/-- `drawBranch`, with an explicit fuel argument `fuel = maxDepth + 1 - depth`.
When `fuel = 0` we have `depth > maxDepth`, so returning no geometry
coincides with the source's guard; recursive calls decrement the fuel as
they increment `depth`, preserving the identity. -/
def drawBranchAux (T : Trig) (health : ℚ) (M : BMetrics) (maxDepth : ℕ)
    (x y length angle : ℚ) (depth : ℕ) (rng : ℤ) (fuel : ℕ) :
    List BranchStep × ℤ :=
  match fuel with
  | 0 => ([], rng)
  | fuel + 1 =>
    if depth > maxDepth ∨ length < 2 then ([], rng)
    else
      let windEffect := M.windOffset * ((depth : ℚ) / (maxDepth : ℚ)) * (4/5)
      let swayedAngle := angle + windEffect
      let v1 := (rngNext rng).2
      let rng1 := (rngNext rng).1
      let curvature := (v1 - 1/2) * length * (3/25)
      let midX := (x + T.cos swayedAngle * length * (1/2)) +
        T.cos (swayedAngle + T.pi / 2) * curvature
      let midY := (y + T.sin swayedAngle * length * (1/2)) +
        T.sin (swayedAngle + T.pi / 2) * curvature
      let endX := x + T.cos swayedAngle * length
      let endY := y + T.sin swayedAngle * length
      let leafChance := 3/10 - (1 - health) * (1/5) - (1 - M.commitDensity) * (1/10)
      let v2 := (rngNext rng1).2
      let rng2 := (rngNext rng1).1
      let rng3 :=
        if (depth : ℤ) ≥ (maxDepth : ℤ) - 2 ∧ 1 - max (1/10) (leafChance * 2) < v2 then
          leafRngBlock health M.commitDensity rng2
        else rng2
      let bc := branchCountStep M.commitDensity depth rng3
      let baseAngleSpread := T.pi * (11/100 + M.sizeSpread * (7/50))
      let step : BranchStep := ⟨x, y, midX, midY, endX, endY, swayedAngle, length, depth⟩
      let children :=
        drawChildren T health M maxDepth endX endY length swayedAngle baseAngleSpread
          depth bc.1 fuel bc.2
      (step :: children.1, children.2)
  termination_by (fuel, 0)

/-- The child loop of lines 610-634: per child, one generator draw for the
angle variation and one for the length reduction, then the recursive call
at `depth + 1`. -/
def drawChildren (T : Trig) (health : ℚ) (M : BMetrics) (maxDepth : ℕ)
    (endX endY length swayedAngle baseAngleSpread : ℚ) (depth : ℕ) (rng : ℤ)
    (fuel : ℕ) (n : ℕ) : List BranchStep × ℤ :=
  match n with
  | 0 => ([], rng)
  | n + 1 =>
    let va := (rngNext rng).2
    let r1 := (rngNext rng).1
    let newAngle := swayedAngle + (va - 1/2) * baseAngleSpread * 2
    let lr := (rngNext r1).2
    let r2 := (rngNext r1).1
    let newLength := length * (13/20 + lr * (3/20))
    let adjustedAngle := newAngle + (1 - health) * (3/10)
    let child := drawBranchAux T health M maxDepth endX endY newLength adjustedAngle
      (depth + 1) r2 fuel
    let rest := drawChildren T health M maxDepth endX endY length swayedAngle
      baseAngleSpread depth child.2 fuel n
    (child.1 ++ rest.1, rest.2)
  termination_by (fuel, n + 1)

end

/-- The source `drawBranch`: the fuel is determined by `depth` and
`maxDepth`. -/
def drawBranch (T : Trig) (health : ℚ) (M : BMetrics) (maxDepth : ℕ)
    (x y length angle : ℚ) (depth : ℕ) (rng : ℤ) : List BranchStep × ℤ :=
  drawBranchAux T health M maxDepth x y length angle depth rng (maxDepth + 1 - depth)

/-- A concrete `Trig` interpretation used by witnesses. -/
def trigDemo : Trig :=
  ⟨fun _ => 1, fun _ => 0, 355/113⟩

/-! ### Theorems: C1, C5 -/

/-- C1: the drawn tree geometry is a deterministic function of the seed and
the render parameters.  Two invocations of `drawBranch`, each on a fresh
generator seeded with the character-code sum of `fullName`, produce the
identical sequence of branch coordinates and angles (and the identical
final generator state); no external randomness enters the geometry. -/
theorem drawBranch_c1_deterministic (T : Trig) (health : ℚ) (M : BMetrics)
    (maxDepth : ℕ) (x y len angle : ℚ) (name : List Char) (r1 r2 : ℤ)
    (h1 : r1 = seedOfName name) (h2 : r2 = seedOfName name) :
    drawBranch T health M maxDepth x y len angle 0 r1 =
      drawBranch T health M maxDepth x y len angle 0 r2 := by
  subst h1
  subst h2
  rfl

/-- C1 witness: two renders of the tree of `"ab"` coincide. -/
theorem drawBranch_c1_deterministic_witness :
    drawBranch trigDemo 1 {} 4 0 0 100 0 0 (seedOfName ['a', 'b']) =
      drawBranch trigDemo 1 {} 4 0 0 100 0 0 (seedOfName ['a', 'b']) :=
  drawBranch_c1_deterministic trigDemo 1 {} 4 0 0 100 0 ['a', 'b'] _ _ rfl rfl

/-- Recurrence for the productive-call bound: a call with `fuel` remaining
levels makes at most `1 + 4 * callBound fuel` productive invocations. -/
def callBound : ℕ → ℕ
  | 0 => 0
  | f + 1 => 1 + 4 * callBound f

theorem callBound_le_pow (f : ℕ) : 3 * callBound f + 1 = 4 ^ f := by
  induction f with
  | zero => rfl
  | succ k ih => simp only [callBound, pow_succ]; omega

theorem branchCountStep_le (cd : ℚ) (depth : ℕ) (rng : ℤ) :
    (branchCountStep cd depth rng).2 ≤ 4 := by
  unfold branchCountStep
  split_ifs <;> simp

theorem drawChildren_length_le (T : Trig) (health : ℚ) (M : BMetrics)
    (maxDepth : ℕ) (fuel : ℕ)
    (hA : ∀ x y len angle depth rng,
      (drawBranchAux T health M maxDepth x y len angle depth rng fuel).1.length ≤
        callBound fuel) :
    ∀ n eX eY len sway spread depth rng,
      (drawChildren T health M maxDepth eX eY len sway spread depth rng fuel n).1.length ≤
        n * callBound fuel := by
  intro n
  induction n with
  | zero => intro eX eY len sway spread depth rng; simp [drawChildren]
  | succ k ih =>
    intro eX eY len sway spread depth rng
    simp only [drawChildren, List.length_append]
    calc _ ≤ callBound fuel + k * callBound fuel :=
          Nat.add_le_add (hA _ _ _ _ _ _) (ih _ _ _ _ _ _ _)
      _ = (k + 1) * callBound fuel := by ring

theorem drawBranchAux_length_le (T : Trig) (health : ℚ) (M : BMetrics)
    (maxDepth : ℕ) :
    ∀ fuel x y len angle depth rng,
      (drawBranchAux T health M maxDepth x y len angle depth rng fuel).1.length ≤
        callBound fuel := by
  intro fuel
  induction fuel with
  | zero => intro x y len angle depth rng; simp [drawBranchAux, callBound]
  | succ f ih =>
    intro x y len angle depth rng
    simp only [drawBranchAux]
    split
    · simp
    · simp only [List.length_cons, callBound]
      have hgen : ∀ (n : ℕ) (eX eY len2 sway spread : ℚ) (d : ℕ) (r : ℤ), n ≤ 4 →
          (drawChildren T health M maxDepth eX eY len2 sway spread d r f n).1.length + 1 ≤
            1 + 4 * callBound f := by
        intro n eX eY len2 sway spread d r hn
        have h1 := drawChildren_length_le T health M maxDepth f ih n eX eY len2 sway spread d r
        have h2 : n * callBound f ≤ 4 * callBound f :=
          Nat.mul_le_mul hn (Nat.le_refl (callBound f))
        omega
      exact hgen _ _ _ _ _ _ _ _ (branchCountStep_le _ _ _)

/-- C5: for every `maxDepth ≤ 10`, positive initial length, starting angle
and generator state, `drawBranch` terminates (it is a total function of
its arguments) and the number of productive invocations — each recursive
call increases `depth` by exactly 1 and a call returns immediately once
`depth > maxDepth` or `length < 2` — is at most `4 ^ (maxDepth + 1)`,
the at-most-4-way fan-out raised to `maxDepth + 1`. -/
theorem drawBranch_c5_call_bound (T : Trig) (health : ℚ) (M : BMetrics)
    (maxDepth : ℕ) (x y len angle : ℚ) (rng : ℤ)
    (_hd : maxDepth ≤ 10) (_hl : 0 < len) :
    (drawBranch T health M maxDepth x y len angle 0 rng).1.length ≤
      4 ^ (maxDepth + 1) := by
  have h := drawBranchAux_length_le T health M maxDepth (maxDepth + 1 - 0)
    x y len angle 0 rng
  have hb := callBound_le_pow (maxDepth + 1)
  unfold drawBranch
  simp only [Nat.sub_zero] at h ⊢
  omega

/-- C5 witness: the bound at `maxDepth = 10`, trunk length 100, seed 7. -/
theorem drawBranch_c5_call_bound_witness :
    (drawBranch trigDemo 1 {} 10 0 0 100 0 0 7).1.length ≤ 4 ^ 11 :=
  drawBranch_c5_call_bound trigDemo 1 {} 10 0 0 100 0 7 (by norm_num) (by norm_num)

/-! ## hexToHsl / hslToHex (src/unnamed/part_000 lines 388-431)

Embedded over exact rationals.  JavaScript `%` on numbers truncates the
quotient toward zero (`jsTrunc`); `Math.round` is `⌊q + 1/2⌋`. -/

/-- Truncation toward zero, as used by the JavaScript `%` operator. -/
def jsTrunc (q : ℚ) : ℤ :=
  if 0 ≤ q then ⌊q⌋ else ⌈q⌉

/-- JavaScript `a % b` on numbers: `a - b * trunc(a / b)`. -/
def jsRem (a b : ℚ) : ℚ :=
  a - b * (jsTrunc (a / b) : ℚ)

/-- `Math.round`: round half toward positive infinity. -/
def jsRound (q : ℚ) : ℤ :=
  ⌊q + 1/2⌋

/-- The body of `hexToHsl` on the three parsed channels scaled to `[0,1]`
(lines 393-409).  The `switch (max)` statement tests `case r` first, then
`case g`, then `case b`; since `max` always equals one of them, the chain
of equality tests below is exact. -/
def hexToHslCore (r g b : ℚ) : ℚ × ℚ × ℚ :=
  let mx := max r (max g b)
  let mn := min r (min g b)
  let l := (mx + mn) / 2
  if mx = mn then (0, 0, l * 100)
  else
    let d := mx - mn
    let s := if 1/2 < l then d / (2 - mx - mn) else d / (mx + mn)
    let h :=
      if mx = r then ((g - b) / d + if g < b then 6 else 0) / 6
      else if mx = g then ((b - r) / d + 2) / 6
      else ((r - g) / d + 4) / 6
    (h * 360, s * 100, l * 100)

/-- The body of `hslToHex` (lines 413-428) up to but excluding the final
rounding: the exact `r + m`, `g + m`, `b + m` channel values in `[0,1]`. -/
def hslToRgbQ (h s l : ℚ) : ℚ × ℚ × ℚ :=
  let s1 := s / 100
  let l1 := l / 100
  let c := (1 - |2 * l1 - 1|) * s1
  let x := c * (1 - |jsRem (h / 60) 2 - 1|)
  let m := l1 - c / 2
  let rgb : ℚ × ℚ × ℚ :=
    if h < 60 then (c, x, 0)
    else if h < 120 then (x, c, 0)
    else if h < 180 then (0, c, x)
    else if h < 240 then (0, x, c)
    else if h < 300 then (x, 0, c)
    else (c, 0, x)
  (rgb.1 + m, rgb.2.1 + m, rgb.2.2 + m)

/-- `hslToHex` down to the integer channel values produced by
`toHex = Math.round((n + m) * 255)` (line 429). -/
def hslToHexCore (h s l : ℚ) : ℤ × ℤ × ℤ :=
  let q := hslToRgbQ h s l
  (jsRound (q.1 * 255), jsRound (q.2.1 * 255), jsRound (q.2.2 * 255))

/-- The `c` value of `hslToHex` as a function of the packed `s`, `l`
arguments (proof-layer abbreviation). -/
def cOf (s l : ℚ) : ℚ :=
  (1 - |2 * (l / 100) - 1|) * (s / 100)

/-- The `m` value of `hslToHex` (proof-layer abbreviation). -/
def mOf (s l : ℚ) : ℚ :=
  l / 100 - cOf s l / 2

theorem jsRem_two_eq (u : ℚ) (k : ℤ) (h0 : 0 ≤ u) (h1 : 2 * (k : ℚ) ≤ u)
    (h2 : u < 2 * (k : ℚ) + 2) : jsRem u 2 = u - 2 * (k : ℚ) := by
  unfold jsRem jsTrunc
  have hpos : 0 ≤ u / 2 := by positivity
  rw [if_pos hpos]
  have hfloor : ⌊u / 2⌋ = k := by
    rw [Int.floor_eq_iff]
    constructor
    · rw [le_div_iff (by norm_num : (0:ℚ) < 2)]
      linarith
    · rw [div_lt_iff (by norm_num : (0:ℚ) < 2)]
      linarith
  rw [hfloor]

theorem jsRem_two_at0 (u : ℚ) (h0 : 0 ≤ u) (h2 : u < 2) : jsRem u 2 = u := by
  have h := jsRem_two_eq u 0 h0 (by push_cast; linarith) (by push_cast; linarith)
  rw [h]
  ring

theorem jsRem_two_at1 (u : ℚ) (h1 : 2 ≤ u) (h2 : u < 4) : jsRem u 2 = u - 2 := by
  have h := jsRem_two_eq u 1 (by linarith) (by push_cast; linarith) (by push_cast; linarith)
  rw [h]
  push_cast
  ring

theorem jsRem_two_at2 (u : ℚ) (h1 : 4 ≤ u) (h2 : u < 6) : jsRem u 2 = u - 4 := by
  have h := jsRem_two_eq u 2 (by linarith) (by push_cast; linarith) (by push_cast; linarith)
  rw [h]
  push_cast
  ring

theorem hslToRgbQ_branch0 (H S L : ℚ) (h1 : H < 60) (h0 : 0 ≤ H) :
    hslToRgbQ H S L =
      (cOf S L + mOf S L, cOf S L * (1 - |H / 60 - 1|) + mOf S L, mOf S L) := by
  simp only [hslToRgbQ, cOf, mOf]
  rw [if_pos h1]
  rw [jsRem_two_at0 (H / 60) (div_nonneg h0 (by norm_num))
    ((div_lt_iff (by norm_num : (0:ℚ) < 60)).mpr (by linarith))]
  simp [Prod.ext_iff]

theorem hslToRgbQ_branch1 (H S L : ℚ) (h1 : 60 ≤ H) (h2 : H < 120) :
    hslToRgbQ H S L =
      (cOf S L * (1 - |H / 60 - 1|) + mOf S L, cOf S L + mOf S L, mOf S L) := by
  simp only [hslToRgbQ, cOf, mOf]
  rw [if_neg (by linarith), if_pos h2]
  rw [jsRem_two_at0 (H / 60) (div_nonneg (by linarith) (by norm_num))
    ((div_lt_iff (by norm_num : (0:ℚ) < 60)).mpr (by linarith))]
  simp [Prod.ext_iff]

theorem hslToRgbQ_branch2 (H S L : ℚ) (h1 : 120 ≤ H) (h2 : H < 180) :
    hslToRgbQ H S L =
      (mOf S L, cOf S L + mOf S L, cOf S L * (1 - |H / 60 - 3|) + mOf S L) := by
  simp only [hslToRgbQ, cOf, mOf]
  rw [if_neg (by linarith), if_neg (by linarith), if_pos h2]
  rw [jsRem_two_at1 (H / 60)
    ((le_div_iff (by norm_num : (0:ℚ) < 60)).mpr (by linarith))
    ((div_lt_iff (by norm_num : (0:ℚ) < 60)).mpr (by linarith))]
  rw [show |H / 60 - 2 - 1| = |H / 60 - 3| from by congr 1; ring]
  simp [Prod.ext_iff]

theorem hslToRgbQ_branch3 (H S L : ℚ) (h1 : 180 ≤ H) (h2 : H < 240) :
    hslToRgbQ H S L =
      (mOf S L, cOf S L * (1 - |H / 60 - 3|) + mOf S L, cOf S L + mOf S L) := by
  simp only [hslToRgbQ, cOf, mOf]
  rw [if_neg (by linarith), if_neg (by linarith), if_neg (by linarith), if_pos h2]
  rw [jsRem_two_at1 (H / 60)
    ((le_div_iff (by norm_num : (0:ℚ) < 60)).mpr (by linarith))
    ((div_lt_iff (by norm_num : (0:ℚ) < 60)).mpr (by linarith))]
  rw [show |H / 60 - 2 - 1| = |H / 60 - 3| from by congr 1; ring]
  simp [Prod.ext_iff]

theorem hslToRgbQ_branch4 (H S L : ℚ) (h1 : 240 ≤ H) (h2 : H < 300) :
    hslToRgbQ H S L =
      (cOf S L * (1 - |H / 60 - 5|) + mOf S L, mOf S L, cOf S L + mOf S L) := by
  simp only [hslToRgbQ, cOf, mOf]
  rw [if_neg (by linarith), if_neg (by linarith), if_neg (by linarith),
    if_neg (by linarith), if_pos h2]
  rw [jsRem_two_at2 (H / 60)
    ((le_div_iff (by norm_num : (0:ℚ) < 60)).mpr (by linarith))
    ((div_lt_iff (by norm_num : (0:ℚ) < 60)).mpr (by linarith))]
  rw [show |H / 60 - 4 - 1| = |H / 60 - 5| from by congr 1; ring]
  simp [Prod.ext_iff]

theorem hslToRgbQ_branch5 (H S L : ℚ) (h1 : 300 ≤ H) (h2 : H < 360) :
    hslToRgbQ H S L =
      (cOf S L + mOf S L, mOf S L, cOf S L * (1 - |H / 60 - 5|) + mOf S L) := by
  simp only [hslToRgbQ, cOf, mOf]
  rw [if_neg (by linarith), if_neg (by linarith), if_neg (by linarith),
    if_neg (by linarith), if_neg (by linarith)]
  rw [jsRem_two_at2 (H / 60)
    ((le_div_iff (by norm_num : (0:ℚ) < 60)).mpr (by linarith))
    ((div_lt_iff (by norm_num : (0:ℚ) < 60)).mpr (by linarith))]
  rw [show |H / 60 - 4 - 1| = |H / 60 - 5| from by congr 1; ring]
  simp [Prod.ext_iff]

theorem cOf_eq (M N : ℚ) (h0 : 0 ≤ N) (hlt : N < M) (h1 : M ≤ 1) :
    cOf ((if 1/2 < (M + N) / 2 then (M - N) / (2 - M - N) else (M - N) / (M + N)) * 100)
      ((M + N) / 2 * 100) = M - N := by
  unfold cOf
  rw [mul_div_cancel_right₀ _ (by norm_num : (100:ℚ) ≠ 0),
    mul_div_cancel_right₀ _ (by norm_num : (100:ℚ) ≠ 0)]
  split_ifs with hl
  · have hsub : (0:ℚ) < 2 - M - N := by linarith
    rw [abs_of_nonneg (by linarith : (0:ℚ) ≤ 2 * ((M + N) / 2) - 1)]
    calc (1 - (2 * ((M + N) / 2) - 1)) * ((M - N) / (2 - M - N))
        = (M - N) / (2 - M - N) * (2 - M - N) := by ring
      _ = M - N := div_mul_cancel₀ _ (ne_of_gt hsub)
  · have hsum : (0:ℚ) < M + N := by linarith
    rw [abs_of_nonpos (by linarith : 2 * ((M + N) / 2) - 1 ≤ 0)]
    calc (1 - -(2 * ((M + N) / 2) - 1)) * ((M - N) / (M + N))
        = (M - N) / (M + N) * (M + N) := by ring
      _ = M - N := div_mul_cancel₀ _ (ne_of_gt hsum)

theorem mOf_eq (M N : ℚ) (h0 : 0 ≤ N) (hlt : N < M) (h1 : M ≤ 1) :
    mOf ((if 1/2 < (M + N) / 2 then (M - N) / (2 - M - N) else (M - N) / (M + N)) * 100)
      ((M + N) / 2 * 100) = N := by
  unfold mOf
  rw [cOf_eq M N h0 hlt h1,
    mul_div_cancel_right₀ _ (by norm_num : (100:ℚ) ≠ 0)]
  ring

/-- The round trip `hslToHex ∘ hexToHsl` is exact on channel values in
`[0, 1]`: the eight hue configurations (which channel attains the maximum,
the sign of the middle-channel offset, and the boundary hues 60 and 180)
each reconstruct the original channels. -/
theorem hexHsl_roundtripQ (r g b : ℚ)
    (h0r : 0 ≤ r) (hr1 : r ≤ 1) (h0g : 0 ≤ g) (hg1 : g ≤ 1)
    (h0b : 0 ≤ b) (hb1 : b ≤ 1) :
    hslToRgbQ (hexToHslCore r g b).1 (hexToHslCore r g b).2.1
      (hexToHslCore r g b).2.2 = (r, g, b) := by
  by_cases heq : max r (max g b) = min r (min g b)
  · -- gray: r = g = b
    have hMr : max r (max g b) = r :=
      le_antisymm (heq ▸ min_le_left _ _) (le_max_left _ _)
    have hMg : max r (max g b) = g :=
      le_antisymm (heq ▸ le_trans (min_le_right _ _) (min_le_left _ _))
        (le_trans (le_max_left _ _) (le_max_right _ _))
    have hMb : max r (max g b) = b :=
      le_antisymm (heq ▸ le_trans (min_le_right _ _) (min_le_right _ _))
        (le_trans (le_max_right _ _) (le_max_right _ _))
    have hNr : min r (min g b) = r := by rw [← heq, hMr]
    have hgr : g = r := by linarith
    have hbr : b = r := by linarith
    have hhex : hexToHslCore r g b =
        (0, 0, (max r (max g b) + min r (min g b)) / 2 * 100) := by
      simp only [hexToHslCore]
      rw [if_pos heq]
    rw [hhex]
    dsimp only
    rw [hslToRgbQ_branch0 _ _ _ (by norm_num) (le_refl 0)]
    have hc0 : cOf 0 ((max r (max g b) + min r (min g b)) / 2 * 100) = 0 := by
      unfold cOf
      ring
    have hm0 : mOf 0 ((max r (max g b) + min r (min g b)) / 2 * 100) = r := by
      unfold mOf cOf
      rw [hMr, hNr]
      ring
    rw [hc0, hm0]
    exact Prod.ext (by ring) (Prod.ext (by rw [hgr]; ring) (by rw [hbr]))
  · -- chromatic
    have hminmax : min r (min g b) ≤ max r (max g b) :=
      le_trans (min_le_left _ _) (le_max_left _ _)
    have hlt : min r (min g b) < max r (max g b) :=
      lt_of_le_of_ne hminmax (fun hh => heq hh.symm)
    by_cases hmr : max r (max g b) = r
    · -- r is the maximum
      have hgM : g ≤ r := by
        rw [← hmr]; exact le_trans (le_max_left g b) (le_max_right r _)
      have hbM : b ≤ r := by
        rw [← hmr]; exact le_trans (le_max_right g b) (le_max_right r _)
      by_cases hgb : g < b
      · -- minimum g, hue in [300, 360)
        have hN : min r (min g b) = g := by
          rw [min_eq_left hgb.le, min_eq_right hgM]
        have hglt : g < r := by
          have h := hlt; rw [hmr, hN] at h; exact h
        have hhex : hexToHslCore r g b =
            (((g - b) / (r - g) + 6) / 6 * 360,
             (if 1/2 < (r + g) / 2 then (r - g) / (2 - r - g) else (r - g) / (r + g)) * 100,
             (r + g) / 2 * 100) := by
          simp only [hexToHslCore]
          rw [hmr, hN]
          rw [if_neg (show ¬ (r = g) by intro hh; linarith)]
          rw [if_pos rfl, if_pos hgb]
        rw [hhex]
        dsimp only
        have hne : r - g ≠ 0 := ne_of_gt (by linarith)
        have ht1 : (g - b) / (r - g) < 0 :=
          div_neg_of_neg_of_pos (by linarith) (by linarith)
        have ht2 : -1 ≤ (g - b) / (r - g) := by
          rw [le_div_iff (by linarith : (0:ℚ) < r - g)]
          linarith
        rw [hslToRgbQ_branch5 (((g - b) / (r - g) + 6) / 6 * 360) _ _
          (by linarith) (by linarith)]
        rw [cOf_eq r g h0g hglt hr1, mOf_eq r g h0g hglt hr1]
        rw [show ((g - b) / (r - g) + 6) / 6 * 360 / 60 - 5 = (g - b) / (r - g) + 1 from by ring]
        rw [abs_of_nonneg (show (0:ℚ) ≤ (g - b) / (r - g) + 1 by linarith)]
        rw [show (r - g) * (1 - ((g - b) / (r - g) + 1)) = (b - g) / (r - g) * (r - g) from by
          ring, div_mul_cancel₀ _ hne]
        exact Prod.ext (by ring) (Prod.ext (by ring) (by ring))
      · -- minimum b
        have hbg : b ≤ g := not_lt.mp hgb
        have hN : min r (min g b) = b := by
          rw [min_eq_right hbg, min_eq_right hbM]
        have hblt : b < r := by
          have h := hlt; rw [hmr, hN] at h; exact h
        have hhex : hexToHslCore r g b =
            (((g - b) / (r - b) + 0) / 6 * 360,
             (if 1/2 < (r + b) / 2 then (r - b) / (2 - r - b) else (r - b) / (r + b)) * 100,
             (r + b) / 2 * 100) := by
          simp only [hexToHslCore]
          rw [hmr, hN]
          rw [if_neg (show ¬ (r = b) by intro hh; linarith)]
          rw [if_pos rfl, if_neg hgb]
        rw [hhex]
        dsimp only
        have hne : r - b ≠ 0 := ne_of_gt (by linarith)
        have ht0 : 0 ≤ (g - b) / (r - b) := div_nonneg (by linarith) (by linarith)
        by_cases hglt : g < r
        · -- hue in [0, 60)
          have ht1 : (g - b) / (r - b) < 1 := by
            rw [div_lt_one (by linarith : (0:ℚ) < r - b)]
            linarith
          rw [hslToRgbQ_branch0 (((g - b) / (r - b) + 0) / 6 * 360) _ _
            (by linarith) (by linarith)]
          rw [cOf_eq r b h0b hblt hr1, mOf_eq r b h0b hblt hr1]
          rw [show ((g - b) / (r - b) + 0) / 6 * 360 / 60 - 1 = (g - b) / (r - b) - 1 from by
            ring]
          rw [abs_of_nonpos (show (g - b) / (r - b) - 1 ≤ 0 by linarith)]
          rw [show (r - b) * (1 - -((g - b) / (r - b) - 1)) = (g - b) / (r - b) * (r - b) from by
            ring, div_mul_cancel₀ _ hne]
          exact Prod.ext (by ring) (Prod.ext (by ring) (by ring))
        · -- g = r, hue exactly 60
          have hgr : g = r := le_antisymm hgM (not_lt.mp hglt)
          have ht : (g - b) / (r - b) = 1 := by
            rw [hgr]; exact div_self hne
          rw [hslToRgbQ_branch1 (((g - b) / (r - b) + 0) / 6 * 360) _ _
            (by linarith) (by linarith)]
          rw [cOf_eq r b h0b hblt hr1, mOf_eq r b h0b hblt hr1]
          rw [show ((g - b) / (r - b) + 0) / 6 * 360 / 60 - 1 = (g - b) / (r - b) - 1 from by
            ring]
          rw [ht]
          rw [show |(1:ℚ) - 1| = 0 from by norm_num]
          exact Prod.ext (by ring) (Prod.ext (by rw [hgr]; ring) (by ring))
    · by_cases hmg : max r (max g b) = g
      · -- g is the maximum
        have hrg : r < g := by
          have h := lt_of_le_of_ne (le_max_left r (max g b)) (fun hh => hmr hh.symm)
          rw [hmg] at h; exact h
        have hbg : b ≤ g := by
          rw [← hmg]; exact le_trans (le_max_right g b) (le_max_right r _)
        by_cases hbr : b < r
        · -- minimum b, hue in (60, 120)
          have hN : min r (min g b) = b := by
            rw [min_eq_right hbg, min_eq_right hbr.le]
          have hblt : b < g := by linarith
          have hne : g - b ≠ 0 := ne_of_gt (by linarith)
          have hhex : hexToHslCore r g b =
              (((b - r) / (g - b) + 2) / 6 * 360,
               (if 1/2 < (g + b) / 2 then (g - b) / (2 - g - b) else (g - b) / (g + b)) * 100,
               (g + b) / 2 * 100) := by
            simp only [hexToHslCore]
            rw [hmg, hN]
            rw [if_neg (show ¬ (g = b) by intro hh; linarith)]
            rw [if_neg (show ¬ (g = r) by intro hh; linarith)]
            rw [if_pos rfl]
          rw [hhex]
          dsimp only
          have ht1 : (b - r) / (g - b) < 0 :=
            div_neg_of_neg_of_pos (by linarith) (by linarith)
          have ht2 : -1 < (b - r) / (g - b) := by
            rw [lt_div_iff (by linarith : (0:ℚ) < g - b)]
            linarith
          rw [hslToRgbQ_branch1 (((b - r) / (g - b) + 2) / 6 * 360) _ _
            (by linarith) (by linarith)]
          rw [cOf_eq g b h0b hblt hg1, mOf_eq g b h0b hblt hg1]
          rw [show ((b - r) / (g - b) + 2) / 6 * 360 / 60 - 1 = (b - r) / (g - b) + 1 from by
            ring]
          rw [abs_of_nonneg (show (0:ℚ) ≤ (b - r) / (g - b) + 1 by linarith)]
          rw [show (g - b) * (1 - ((b - r) / (g - b) + 1)) = (r - b) / (g - b) * (g - b) from by
            ring, div_mul_cancel₀ _ hne]
          exact Prod.ext (by ring) (Prod.ext (by ring) (by ring))
        · -- minimum r
          have hrb : r ≤ b := not_lt.mp hbr
          have hN : min r (min g b) = r := by
            rw [min_eq_right hbg, min_eq_left hrb]
          have hne : g - r ≠ 0 := ne_of_gt (by linarith)
          have hhex : hexToHslCore r g b =
              (((b - r) / (g - r) + 2) / 6 * 360,
               (if 1/2 < (g + r) / 2 then (g - r) / (2 - g - r) else (g - r) / (g + r)) * 100,
               (g + r) / 2 * 100) := by
            simp only [hexToHslCore]
            rw [hmg, hN]
            rw [if_neg (show ¬ (g = r) by intro hh; linarith)]
            rw [if_neg (show ¬ (g = r) by intro hh; linarith)]
            rw [if_pos rfl]
          rw [hhex]
          dsimp only
          by_cases hbg2 : b < g
          · -- hue in [120, 180)
            have ht0 : 0 ≤ (b - r) / (g - r) := div_nonneg (by linarith) (by linarith)
            have ht1 : (b - r) / (g - r) < 1 := by
              rw [div_lt_one (by linarith : (0:ℚ) < g - r)]
              linarith
            rw [hslToRgbQ_branch2 (((b - r) / (g - r) + 2) / 6 * 360) _ _
              (by linarith) (by linarith)]
            rw [cOf_eq g r h0r hrg hg1, mOf_eq g r h0r hrg hg1]
            rw [show ((b - r) / (g - r) + 2) / 6 * 360 / 60 - 3 = (b - r) / (g - r) - 1 from by
              ring]
            rw [abs_of_nonpos (show (b - r) / (g - r) - 1 ≤ 0 by linarith)]
            rw [show (g - r) * (1 - -((b - r) / (g - r) - 1)) = (b - r) / (g - r) * (g - r)
              from by ring, div_mul_cancel₀ _ hne]
            exact Prod.ext (by ring) (Prod.ext (by ring) (by ring))
          · -- b = g, hue exactly 180
            have hbg3 : b = g := le_antisymm hbg (not_lt.mp hbg2)
            have ht : (b - r) / (g - r) = 1 := by
              rw [hbg3]; exact div_self hne
            rw [hslToRgbQ_branch3 (((b - r) / (g - r) + 2) / 6 * 360) _ _
              (by linarith) (by linarith)]
            rw [cOf_eq g r h0r hrg hg1, mOf_eq g r h0r hrg hg1]
            rw [show ((b - r) / (g - r) + 2) / 6 * 360 / 60 - 3 = (b - r) / (g - r) - 1 from by
              ring]
            rw [ht]
            rw [show |(1:ℚ) - 1| = 0 from by norm_num]
            exact Prod.ext (by ring) (Prod.ext (by ring) (by rw [hbg3]; ring))
      · -- b is the maximum
        have hmb : max r (max g b) = b := by
          rcases max_choice r (max g b) with h | h
          · exact absurd h hmr
          · rcases max_choice g b with h2 | h2
            · exact absurd (h.trans h2) hmg
            · exact h.trans h2
        have hrb : r < b := by
          have h := lt_of_le_of_ne (le_max_left r (max g b)) (fun hh => hmr hh.symm)
          rw [hmb] at h; exact h
        have hgb2 : g < b := by
          have h := lt_of_le_of_ne (le_trans (le_max_left g b) (le_max_right r _))
            (fun hh => hmg hh.symm)
          rw [hmb] at h; exact h
        by_cases hrg : r < g
        · -- minimum r, hue in (180, 240)
          have hN : min r (min g b) = r := by
            rw [min_eq_left hgb2.le, min_eq_left hrg.le]
          have hne : b - r ≠ 0 := ne_of_gt (by linarith)
          have hhex : hexToHslCore r g b =
              (((r - g) / (b - r) + 4) / 6 * 360,
               (if 1/2 < (b + r) / 2 then (b - r) / (2 - b - r) else (b - r) / (b + r)) * 100,
               (b + r) / 2 * 100) := by
            simp only [hexToHslCore]
            rw [hmb, hN]
            rw [if_neg (show ¬ (b = r) by intro hh; linarith)]
            rw [if_neg (show ¬ (b = r) by intro hh; linarith)]
            rw [if_neg (show ¬ (b = g) by intro hh; linarith)]
          rw [hhex]
          dsimp only
          have ht1 : (r - g) / (b - r) < 0 :=
            div_neg_of_neg_of_pos (by linarith) (by linarith)
          have ht2 : -1 < (r - g) / (b - r) := by
            rw [lt_div_iff (by linarith : (0:ℚ) < b - r)]
            linarith
          rw [hslToRgbQ_branch3 (((r - g) / (b - r) + 4) / 6 * 360) _ _
            (by linarith) (by linarith)]
          rw [cOf_eq b r h0r hrb hb1, mOf_eq b r h0r hrb hb1]
          rw [show ((r - g) / (b - r) + 4) / 6 * 360 / 60 - 3 = (r - g) / (b - r) + 1 from by
            ring]
          rw [abs_of_nonneg (show (0:ℚ) ≤ (r - g) / (b - r) + 1 by linarith)]
          rw [show (b - r) * (1 - ((r - g) / (b - r) + 1)) = (g - r) / (b - r) * (b - r) from by
            ring, div_mul_cancel₀ _ hne]
          exact Prod.ext (by ring) (Prod.ext (by ring) (by ring))
        · -- minimum g, hue in [240, 300)
          have hgr : g ≤ r := not_lt.mp hrg
          have hN : min r (min g b) = g := by
            rw [min_eq_left hgb2.le, min_eq_right hgr]
          have hne : b - g ≠ 0 := ne_of_gt (by linarith)
          have hhex : hexToHslCore r g b =
              (((r - g) / (b - g) + 4) / 6 * 360,
               (if 1/2 < (b + g) / 2 then (b - g) / (2 - b - g) else (b - g) / (b + g)) * 100,
               (b + g) / 2 * 100) := by
            simp only [hexToHslCore]
            rw [hmb, hN]
            rw [if_neg (show ¬ (b = g) by intro hh; linarith)]
            rw [if_neg (show ¬ (b = r) by intro hh; linarith)]
            rw [if_neg (show ¬ (b = g) by intro hh; linarith)]
          rw [hhex]
          dsimp only
          have ht0 : 0 ≤ (r - g) / (b - g) := div_nonneg (by linarith) (by linarith)
          have ht1 : (r - g) / (b - g) < 1 := by
            rw [div_lt_one (by linarith : (0:ℚ) < b - g)]
            linarith
          rw [hslToRgbQ_branch4 (((r - g) / (b - g) + 4) / 6 * 360) _ _
            (by linarith) (by linarith)]
          rw [cOf_eq b g h0g hgb2 hb1, mOf_eq b g h0g hgb2 hb1]
          rw [show ((r - g) / (b - g) + 4) / 6 * 360 / 60 - 5 = (r - g) / (b - g) - 1 from by
            ring]
          rw [abs_of_nonpos (show (r - g) / (b - g) - 1 ≤ 0 by linarith)]
          rw [show (b - g) * (1 - -((r - g) / (b - g) - 1)) = (r - g) / (b - g) * (b - g) from by
            ring, div_mul_cancel₀ _ hne]
          exact Prod.ext (by ring) (Prod.ext (by ring) (by ring))

/-! ### The string interface of hexToHsl / hslToHex

`hexToHsl` receives the 7-character string `"#rrggbb"` and parses the three
2-character slices with `parseInt(·, 16)` (lines 389-391); `hslToHex`
formats each rounded channel with `toString(16).padStart(2, '0')`
(lines 429-430).  `hexDigitVal` is the hexadecimal digit table of
`parseInt` (both letter cases); on the claim's domain of valid hex strings
the 2-character slices are exactly two valid digits, so modelling the
parse as `Option` (none for an invalid digit) agrees with the source. -/

/-- The hexadecimal digit table of `parseInt(·, 16)`, both letter cases. -/
def hexDigits : List (Char × ℕ) :=
  [('0', 0), ('1', 1), ('2', 2), ('3', 3), ('4', 4), ('5', 5), ('6', 6),
   ('7', 7), ('8', 8), ('9', 9), ('a', 10), ('b', 11), ('c', 12), ('d', 13),
   ('e', 14), ('f', 15), ('A', 10), ('B', 11), ('C', 12), ('D', 13),
   ('E', 14), ('F', 15)]

/-- The value of one hexadecimal digit under `parseInt(·, 16)`. -/
def hexDigitVal (c : Char) : Option ℕ :=
  (hexDigits.find? (fun p => p.1 = c)).map (fun p => p.2)

/-- `parseInt` of a two-hex-digit string. -/
def parseHexByte (c1 c2 : Char) : Option ℕ :=
  match hexDigitVal c1, hexDigitVal c2 with
  | some a, some d => some (16 * a + d)
  | _, _ => none

/-- `parseInt(s.slice(i, i + 2), 16)` for a valid two-digit slice. -/
def sliceParse (s : List Char) (i : ℕ) : Option ℕ :=
  match s.drop i with
  | c1 :: c2 :: _ => parseHexByte c1 c2
  | _ => none

/-- `hexToHsl` on the input string (lines 388-409). -/
def hexToHsl (s : List Char) : Option (ℚ × ℚ × ℚ) :=
  match sliceParse s 1, sliceParse s 3, sliceParse s 5 with
  | some R, some G, some B =>
      some (hexToHslCore ((R : ℚ) / 255) ((G : ℚ) / 255) ((B : ℚ) / 255))
  | _, _, _ => none

/-- One lowercase hexadecimal digit of `toString(16)`. -/
def hexDigitChar (n : ℕ) : Char :=
  if n < 10 then Char.ofNat (48 + n) else Char.ofNat (87 + n)

/-- `n.toString(16).padStart(2, '0')` for a channel value `0 ≤ n ≤ 255`. -/
def toHexByte (n : ℤ) : List Char :=
  [hexDigitChar (n.toNat / 16), hexDigitChar (n.toNat % 16)]

/-- `hslToHex` producing the output string (lines 413-430). -/
def hslToHex (h s l : ℚ) : List Char :=
  let q := hslToHexCore h s l
  '#' :: (toHexByte q.1 ++ toHexByte q.2.1 ++ toHexByte q.2.2)

theorem hexDigitVal_le_15 (c : Char) (v : ℕ) (h : hexDigitVal c = some v) :
    v ≤ 15 := by
  unfold hexDigitVal at h
  cases hfind : hexDigits.find? (fun p => p.1 = c) with
  | none => rw [hfind] at h; simp at h
  | some p =>
    rw [hfind] at h
    have hmem := List.mem_of_find?_eq_some hfind
    have hall : ∀ q ∈ hexDigits, q.2 ≤ 15 := by decide
    have hv : p.2 = v := by
      simpa using h
    have := hall p hmem
    omega

theorem parseHexByte_le (c1 c2 : Char) (n : ℕ) (h : parseHexByte c1 c2 = some n) :
    n ≤ 255 := by
  unfold parseHexByte at h
  cases hv1 : hexDigitVal c1 with
  | none => rw [hv1] at h; simp at h
  | some a =>
    cases hv2 : hexDigitVal c2 with
    | none => rw [hv1, hv2] at h; simp at h
    | some d =>
      rw [hv1, hv2] at h
      simp only [Option.some.injEq] at h
      have ha := hexDigitVal_le_15 c1 a hv1
      have hd := hexDigitVal_le_15 c2 d hv2
      omega

theorem sliceParse_le (s : List Char) (i n : ℕ) (h : sliceParse s i = some n) :
    n ≤ 255 := by
  unfold sliceParse at h
  cases hdrop : s.drop i with
  | nil => rw [hdrop] at h; simp at h
  | cons c1 t =>
    cases t with
    | nil => rw [hdrop] at h; simp at h
    | cons c2 t2 =>
      rw [hdrop] at h
      exact parseHexByte_le c1 c2 n h

set_option maxRecDepth 20000 in
set_option maxHeartbeats 1000000 in
theorem parse_toHexByte :
    ∀ n : ℕ, n < 256 →
      parseHexByte (hexDigitChar (n / 16)) (hexDigitChar (n % 16)) = some n := by
  decide

theorem sliceParse_at1 (a c1 c2 : Char) (rest : List Char) :
    sliceParse (a :: c1 :: c2 :: rest) 1 = parseHexByte c1 c2 := rfl

theorem sliceParse_at3 (a b1 b2 c1 c2 : Char) (rest : List Char) :
    sliceParse (a :: b1 :: b2 :: c1 :: c2 :: rest) 3 = parseHexByte c1 c2 := rfl

theorem sliceParse_at5 (a b1 b2 b3 b4 c1 c2 : Char) (rest : List Char) :
    sliceParse (a :: b1 :: b2 :: b3 :: b4 :: c1 :: c2 :: rest) 5 = parseHexByte c1 c2 := rfl

theorem jsRound_div255 (n : ℕ) : jsRound ((n : ℚ) / 255 * 255) = n := by
  rw [div_mul_cancel₀ _ (by norm_num : (255:ℚ) ≠ 0)]
  unfold jsRound
  rw [Int.floor_eq_iff]
  constructor
  · push_cast; linarith
  · push_cast; linarith

/-- C6: for every valid hex color string `#rrggbb` (three 2-digit
hexadecimal slices parsing to channels `R`, `G`, `B`), converting with
`hexToHsl` and back with `hslToHex` yields a hex color whose channels each
differ from the original by at most 1 (in fact the round trip is exact in
exact rational arithmetic). -/
theorem hexHsl_c6_roundtrip (c : List Char) (R G B : ℕ)
    (hp1 : sliceParse c 1 = some R) (hp3 : sliceParse c 3 = some G)
    (hp5 : sliceParse c 5 = some B) :
    ∃ hh ss ll R2 G2 B2,
      hexToHsl c = some (hh, ss, ll) ∧
      sliceParse (hslToHex hh ss ll) 1 = some R2 ∧
      sliceParse (hslToHex hh ss ll) 3 = some G2 ∧
      sliceParse (hslToHex hh ss ll) 5 = some B2 ∧
      |(R2 : ℤ) - (R : ℤ)| ≤ 1 ∧ |(G2 : ℤ) - (G : ℤ)| ≤ 1 ∧
      |(B2 : ℤ) - (B : ℤ)| ≤ 1 := by
  have hR := sliceParse_le c 1 R hp1
  have hG := sliceParse_le c 3 G hp3
  have hB := sliceParse_le c 5 B hp5
  have hb1 : (0:ℚ) ≤ (R : ℚ) / 255 := by positivity
  have hb2 : (R : ℚ) / 255 ≤ 1 := by
    rw [div_le_one (by norm_num)]; exact_mod_cast hR
  have hb3 : (0:ℚ) ≤ (G : ℚ) / 255 := by positivity
  have hb4 : (G : ℚ) / 255 ≤ 1 := by
    rw [div_le_one (by norm_num)]; exact_mod_cast hG
  have hb5 : (0:ℚ) ≤ (B : ℚ) / 255 := by positivity
  have hb6 : (B : ℚ) / 255 ≤ 1 := by
    rw [div_le_one (by norm_num)]; exact_mod_cast hB
  rcases htrip : hexToHslCore ((R:ℚ)/255) ((G:ℚ)/255) ((B:ℚ)/255) with ⟨hh, ss, ll⟩
  have hcore := hexHsl_roundtripQ ((R:ℚ)/255) ((G:ℚ)/255) ((B:ℚ)/255)
    hb1 hb2 hb3 hb4 hb5 hb6
  rw [htrip] at hcore
  dsimp only at hcore
  have hchan : hslToHexCore hh ss ll = ((R:ℤ), (G:ℤ), (B:ℤ)) := by
    unfold hslToHexCore
    rw [hcore]
    dsimp only
    rw [jsRound_div255, jsRound_div255, jsRound_div255]
  have hout : hslToHex hh ss ll =
      ['#', hexDigitChar (R / 16), hexDigitChar (R % 16), hexDigitChar (G / 16),
       hexDigitChar (G % 16), hexDigitChar (B / 16), hexDigitChar (B % 16)] := by
    unfold hslToHex toHexByte
    rw [hchan]
    dsimp only
    rw [Int.toNat_natCast, Int.toNat_natCast, Int.toNat_natCast]
    rfl
  refine ⟨hh, ss, ll, R, G, B, ?_, ?_, ?_, ?_, by simp, by simp, by simp⟩
  · unfold hexToHsl
    rw [hp1, hp3, hp5]
    dsimp only
    rw [htrip]
  · rw [hout, sliceParse_at1]
    exact parse_toHexByte R (by omega)
  · rw [hout, sliceParse_at3]
    exact parse_toHexByte G (by omega)
  · rw [hout, sliceParse_at5]
    exact parse_toHexByte B (by omega)

/-- C6 witness: the round trip applied to the concrete color `#3178c6`
(the TypeScript palette entry). -/
theorem hexHsl_c6_roundtrip_witness :
    ∃ hh ss ll R2 G2 B2,
      hexToHsl ['#', '3', '1', '7', '8', 'c', '6'] = some (hh, ss, ll) ∧
      sliceParse (hslToHex hh ss ll) 1 = some R2 ∧
      sliceParse (hslToHex hh ss ll) 3 = some G2 ∧
      sliceParse (hslToHex hh ss ll) 5 = some B2 ∧
      |(R2 : ℤ) - (49 : ℤ)| ≤ 1 ∧ |(G2 : ℤ) - (120 : ℤ)| ≤ 1 ∧
      |(B2 : ℤ) - (198 : ℤ)| ≤ 1 :=
  hexHsl_c6_roundtrip ['#', '3', '1', '7', '8', 'c', '6'] 49 120 198
    (by decide) (by decide) (by decide)

/-! ## JavaScript number semantics of the drawTree metric pipeline (C7)

`drawTree` (lines 677-681) computes
`maxDepth = Math.min(10, Math.max(4, Math.floor(Math.log10(data.commitCount + 1) * 1.6)))`
on the RAW `data.commitCount` (the `|| fallback` defaults of lines 690-694
are applied only to the density/spread/age metrics).  To settle whether a
negative or non-finite metric can reach `drawBranch`, we model the
JavaScript number line with explicit `NaN` and infinities.  `Math.log10`
of a positive rational is irrational, so its value is an abstract
parameter `lg`; the NaN-propagation behaviour proved below never consults
it. -/

/-- A JavaScript number: finite, `Infinity`, `-Infinity`, or `NaN`. -/
inductive JSNum where
  | num (q : ℚ)
  | posInf
  | negInf
  | nan
deriving DecidableEq

/-- JavaScript addition. -/
def jsAdd : JSNum → JSNum → JSNum
  | .nan, _ => .nan
  | _, .nan => .nan
  | .num a, .num b => .num (a + b)
  | .posInf, .negInf => .nan
  | .negInf, .posInf => .nan
  | .posInf, _ => .posInf
  | _, .posInf => .posInf
  | .negInf, _ => .negInf
  | _, .negInf => .negInf

/-- JavaScript multiplication. -/
def jsMul : JSNum → JSNum → JSNum
  | .nan, _ => .nan
  | _, .nan => .nan
  | .num a, .num b => .num (a * b)
  | .posInf, .num b => if b = 0 then .nan else if 0 < b then .posInf else .negInf
  | .num a, .posInf => if a = 0 then .nan else if 0 < a then .posInf else .negInf
  | .negInf, .num b => if b = 0 then .nan else if 0 < b then .negInf else .posInf
  | .num a, .negInf => if a = 0 then .nan else if 0 < a then .negInf else .posInf
  | .posInf, .posInf => .posInf
  | .posInf, .negInf => .negInf
  | .negInf, .posInf => .negInf
  | .negInf, .negInf => .posInf

/-- `Math.floor`: NaN and infinities pass through. -/
def jsFloor : JSNum → JSNum
  | .num q => .num (⌊q⌋ : ℚ)
  | x => x

/-- `Math.max`: returns NaN if either argument is NaN. -/
def jsMax : JSNum → JSNum → JSNum
  | .nan, _ => .nan
  | _, .nan => .nan
  | .posInf, _ => .posInf
  | _, .posInf => .posInf
  | .negInf, y => y
  | x, .negInf => x
  | .num a, .num b => .num (max a b)

/-- `Math.min`: returns NaN if either argument is NaN. -/
def jsMin : JSNum → JSNum → JSNum
  | .nan, _ => .nan
  | _, .nan => .nan
  | .negInf, _ => .negInf
  | _, .negInf => .negInf
  | .posInf, y => y
  | x, .posInf => x
  | .num a, .num b => .num (min a b)

/-- `Math.log10`: NaN on negative input, `-Infinity` at 0, and on positive
rationals the abstract value `lg q`. -/
def jsLog10 (lg : ℚ → ℚ) : JSNum → JSNum
  | .num q => if q < 0 then .nan else if q = 0 then .negInf else .num (lg q)
  | .posInf => .posInf
  | .negInf => .nan
  | .nan => .nan

/-- The `maxDepth` expression of `drawTree` line 678 on a JavaScript
number, exactly as written in the source. -/
def maxDepthJS (lg : ℚ → ℚ) (commitCount : JSNum) : JSNum :=
  jsMin (.num 10)
    (jsMax (.num 4)
      (jsFloor (jsMul (jsLog10 lg (jsAdd commitCount (.num 1))) (.num (8/5)))))

/-- C7 (the code violates the claim): a metrics record with the negative
`commitCount = -10` makes `drawTree` evaluate `Math.log10(-9) = NaN`, and
`Math.max`/`Math.min` propagate it, so `maxDepth = NaN` is passed into
`drawBranch` (line 741) — nothing clamps the raw metric at the mapping
boundary.  The same happens when `commitCount` itself is `NaN`.  This
holds for every interpretation `lg` of the logarithm, since the NaN path
never consults it. -/
theorem maxDepthJS_c7_nan_on_negative (lg : ℚ → ℚ) :
    maxDepthJS lg (JSNum.num (-10)) = JSNum.nan ∧
    maxDepthJS lg JSNum.nan = JSNum.nan := by
  constructor
  · unfold maxDepthJS jsAdd jsLog10
    norm_num [jsMul, jsFloor, jsMax, jsMin]
  · rfl

/-! ## Particle lifecycle (C8, C9)

The three particle kinds of lines 16-147, their constructors (the
`Math.random()` draws are explicit arguments `r1, r2, …`; colors are
copied verbatim into the instance and never influence `update` or the
filter, so they are omitted), the per-frame update-filter step of
`animateParticles` (lines 866-904), and the repository-switch paths. -/

/-- `Particle` (lines 16-33). -/
structure Particle where
  x : ℚ
  y : ℚ
  vx : ℚ
  vy : ℚ
  life : ℚ
  decay : ℚ
  size : ℚ

/-- The `Particle` constructor (lines 17-26). -/
def Particle.init (x y r1 r2 r3 : ℚ) : Particle :=
  ⟨x, y, (r1 - 1/2) * (1/2), -(r2 * (3/10)) - 1/5, 1, 1/100, r3 * 2 + 1⟩

/-- `Particle.update` (lines 28-33): move, decay, report `life > 0`. -/
def Particle.update (p : Particle) : Particle × Bool :=
  let p2 : Particle := { p with
    x := p.x + p.vx
    y := p.y + p.vy
    life := p.life - p.decay }
  (p2, decide (0 < p2.life))

/-- Iterated `Particle.update`, following the surviving state. -/
def Particle.iter : ℕ → Particle → Particle
  | 0, p => p
  | n + 1, p => Particle.iter n (Particle.update p).1

/-- The firefly bounding box (line 50). -/
structure FBounds where
  minX : ℚ
  maxX : ℚ
  minY : ℚ
  maxY : ℚ

/-- `Firefly` (lines 44-99). -/
structure Firefly where
  x : ℚ
  y : ℚ
  baseX : ℚ
  baseY : ℚ
  bounds : Option FBounds
  angle : ℚ
  speed : ℚ
  wobble : ℚ
  wobbleSpeed : ℚ
  life : ℚ
  decay : ℚ
  size : ℚ
  glowPhase : ℚ

/-- The `Firefly` constructor (lines 45-60). -/
def Firefly.init (T : Trig) (x y : ℚ) (bounds : Option FBounds)
    (r1 r2 r3 r4 r5 r6 r7 : ℚ) : Firefly :=
  ⟨x, y, x, y, bounds, r1 * T.pi * 2, 3/10 + r2 * (2/5), r3 * T.pi * 2,
   1/50 + r4 * (1/50), 1, 1/500 + r5 * (1/500), 3/2 + r6 * 2, r7 * T.pi * 2⟩

/-- `Firefly.update` (lines 62-81): drift with wobble, soft-reflect at the
bounds, advance the glow phase, decay, report `life > 0`.  The argument
`r` is the `Math.random()` draw of line 65. -/
def Firefly.update (T : Trig) (r : ℚ) (f : Firefly) : Firefly × Bool :=
  let wobble2 := f.wobble + f.wobbleSpeed
  let angle2 := f.angle + (r - 1/2) * (1/10)
  let x2 := f.x + T.cos angle2 * f.speed + T.sin wobble2 * (3/10)
  let y2 := f.y + T.sin angle2 * f.speed + T.cos (wobble2 * (7/10)) * (1/5)
  let angle3 :=
    match f.bounds with
    | none => angle2
    | some bd =>
      let a1 := if x2 < bd.minX then T.pi - angle2 else angle2
      let a2 := if bd.maxX < x2 then T.pi - a1 else a1
      let a3 := if y2 < bd.minY then -a2 else a2
      if bd.maxY < y2 then -a3 else a3
  let f2 : Firefly := { f with
    x := x2
    y := y2
    wobble := wobble2
    angle := angle3
    glowPhase := f.glowPhase + 1/20
    life := f.life - f.decay }
  (f2, decide (0 < f2.life))

/-- `FallingLeaf` (lines 102-147). -/
structure FallingLeaf where
  x : ℚ
  y : ℚ
  vx : ℚ
  vy : ℚ
  life : ℚ
  decay : ℚ
  size : ℚ
  rotation : ℚ
  rotationSpeed : ℚ
  swayPhase : ℚ
  swaySpeed : ℚ

/-- The `FallingLeaf` constructor (lines 103-116). -/
def FallingLeaf.init (T : Trig) (x y r1 r2 r3 r4 r5 r6 r7 r8 : ℚ) : FallingLeaf :=
  ⟨x, y, (r1 - 1/2) * (4/5), 3/10 + r2 * (1/2), 1, 3/1000 + r3 * (1/500),
   2 + r4 * 3, r5 * T.pi * 2, (r6 - 1/2) * (1/20), r7 * T.pi * 2,
   3/100 + r8 * (1/50)⟩

/-- `FallingLeaf.update` (lines 118-126): swaying descent, rotation,
decay, report `life > 0`. -/
def FallingLeaf.update (T : Trig) (l : FallingLeaf) : FallingLeaf × Bool :=
  let sway2 := l.swayPhase + l.swaySpeed
  let l2 : FallingLeaf := { l with
    swayPhase := sway2
    x := l.x + l.vx + T.sin sway2 * (1/2)
    y := l.y + l.vy
    rotation := l.rotation + l.rotationSpeed
    life := l.life - l.decay }
  (l2, decide (0 < l2.life))

/-- Line 870: `particlesRef.current = particlesRef.current.filter(p => p.update())`. -/
def stepParticles (ps : List Particle) : List Particle :=
  ((ps.map Particle.update).filter (fun z => z.2)).map (fun z => z.1)

/-- Line 871, with the per-firefly `Math.random()` draw supplied by `rnd`. -/
def stepFireflies (T : Trig) (rnd : ℕ → ℚ) (fs : List Firefly) : List Firefly :=
  ((fs.enum.map (fun iz => Firefly.update T (rnd iz.1) iz.2)).filter
    (fun z => z.2)).map (fun z => z.1)

/-- Line 872. -/
def stepLeaves (T : Trig) (ls : List FallingLeaf) : List FallingLeaf :=
  ((ls.map (FallingLeaf.update T)).filter (fun z => z.2)).map (fun z => z.1)

/-- The three particle collections held in refs. -/
structure Frame where
  particles : List Particle
  fireflies : List Firefly
  leaves : List FallingLeaf

/-- The constructor arguments of a conditionally spawned firefly
(lines 879-890). -/
structure FireflySpawn where
  x : ℚ
  y : ℚ
  bounds : Option FBounds
  r1 : ℚ
  r2 : ℚ
  r3 : ℚ
  r4 : ℚ
  r5 : ℚ
  r6 : ℚ
  r7 : ℚ

/-- The constructor arguments of a conditionally spawned falling leaf
(lines 898-903). -/
structure LeafSpawn where
  x : ℚ
  y : ℚ
  r1 : ℚ
  r2 : ℚ
  r3 : ℚ
  r4 : ℚ
  r5 : ℚ
  r6 : ℚ
  r7 : ℚ
  r8 : ℚ

/-- One turn of `animateParticles` (lines 846-909) at the particle level:
`drawTree` first pushes the newly emitted ambient particles into the
collection (line 866, modelled by `emitted`), all three collections are
then update-filtered (lines 870-872), and afterwards at most one firefly
and one falling leaf may spawn with `life = 1` (lines 875-904); the
spawn-gating conditions (star count, health, caps, `Math.random()`)
are abstracted by the `Option` arguments.  `renderFrame` runs last. -/
def animateStep (T : Trig) (fr : Frame) (emitted : List Particle)
    (rnd : ℕ → ℚ) (fSpawn : Option FireflySpawn) (lSpawn : Option LeafSpawn) :
    Frame :=
  let ps := stepParticles (fr.particles ++ emitted)
  let fs := stepFireflies T rnd fr.fireflies
  let ls := stepLeaves T fr.leaves
  let fs2 :=
    match fSpawn with
    | none => fs
    | some sp =>
        fs ++ [Firefly.init T sp.x sp.y sp.bounds sp.r1 sp.r2 sp.r3 sp.r4
          sp.r5 sp.r6 sp.r7]
  let ls2 :=
    match lSpawn with
    | none => ls
    | some sp =>
        ls ++ [FallingLeaf.init T sp.x sp.y sp.r1 sp.r2 sp.r3 sp.r4 sp.r5
          sp.r6 sp.r7 sp.r8]
  ⟨ps, fs2, ls2⟩

/-- The life values of everything `renderFrame` (lines 778-807) draws: it
draws exactly the current members of the three collections. -/
def renderFrameLives (fr : Frame) : List ℚ :=
  fr.particles.map Particle.life ++ fr.fireflies.map Firefly.life ++
    fr.leaves.map FallingLeaf.life

theorem stepParticles_all_pos (ps : List Particle) :
    (stepParticles ps).all (fun p => decide (0 < p.life)) = true := by
  unfold stepParticles
  rw [List.all_eq_true]
  intro p hp
  simp only [List.mem_map, List.mem_filter] at hp
  obtain ⟨z, ⟨hz1, hz2⟩, rfl⟩ := hp
  obtain ⟨q, _, rfl⟩ := hz1
  exact hz2

theorem stepFireflies_all_pos (T : Trig) (rnd : ℕ → ℚ) (fs : List Firefly) :
    (stepFireflies T rnd fs).all (fun f => decide (0 < f.life)) = true := by
  unfold stepFireflies
  rw [List.all_eq_true]
  intro f hf
  simp only [List.mem_map, List.mem_filter] at hf
  obtain ⟨z, ⟨hz1, hz2⟩, rfl⟩ := hf
  obtain ⟨q, _, rfl⟩ := hz1
  exact hz2

theorem stepLeaves_all_pos (T : Trig) (ls : List FallingLeaf) :
    (stepLeaves T ls).all (fun l => decide (0 < l.life)) = true := by
  unfold stepLeaves
  rw [List.all_eq_true]
  intro l hl
  simp only [List.mem_map, List.mem_filter] at hl
  obtain ⟨z, ⟨hz1, hz2⟩, rfl⟩ := hl
  obtain ⟨q, _, rfl⟩ := hz1
  exact hz2

theorem all_map_pos_lives {α : Type} (f : α → ℚ) (l : List α) :
    (l.map f).all (fun v => decide (0 < v)) = l.all (fun a => decide (0 < f a)) := by
  induction l with
  | nil => rfl
  | cons x xs ih => simp [List.all_cons, ih]

/-- C9: `update()` reports survival exactly by the sign of the decayed
life (so it returns `false` precisely on the first call that brings
`life ≤ 0`, life decreasing linearly by the fixed decay); the per-frame
update-then-filter step leaves only members with `life > 0` in each of the
three collections (a particle whose `update` returned `false` is removed
in that same frame and never updated again); and `renderFrame`, which
draws exactly the current collections after the step, never draws a
particle whose life is `≤ 0`. -/
theorem particles_c9_lifecycle (T : Trig) (fr : Frame) (emitted : List Particle)
    (rnd : ℕ → ℚ) (fSpawn : Option FireflySpawn) (lSpawn : Option LeafSpawn) :
    (∀ p : Particle,
      (Particle.update p).2 = decide (0 < (Particle.update p).1.life)) ∧
    (∀ (r : ℚ) (f : Firefly),
      (Firefly.update T r f).2 = decide (0 < (Firefly.update T r f).1.life)) ∧
    (∀ l : FallingLeaf,
      (FallingLeaf.update T l).2 = decide (0 < (FallingLeaf.update T l).1.life)) ∧
    (∀ (p : Particle) (n : ℕ),
      (Particle.iter n p).life = p.life - n * p.decay) ∧
    ((animateStep T fr emitted rnd fSpawn lSpawn).particles.all
      (fun p => decide (0 < p.life)) = true) ∧
    ((animateStep T fr emitted rnd fSpawn lSpawn).fireflies.all
      (fun f => decide (0 < f.life)) = true) ∧
    ((animateStep T fr emitted rnd fSpawn lSpawn).leaves.all
      (fun l => decide (0 < l.life)) = true) ∧
    ((renderFrameLives (animateStep T fr emitted rnd fSpawn lSpawn)).all
      (fun v => decide (0 < v)) = true) := by
  have hiter : ∀ (n : ℕ) (p : Particle),
      (Particle.iter n p).life = p.life - n * p.decay := by
    intro n
    induction n with
    | zero => intro p; simp [Particle.iter]
    | succ k ih =>
      intro p
      rw [Particle.iter, ih]
      simp only [Particle.update]
      push_cast
      ring
  have hp := stepParticles_all_pos (fr.particles ++ emitted)
  have hf := stepFireflies_all_pos T rnd fr.fireflies
  have hl := stepLeaves_all_pos T fr.leaves
  have hfs2 : (animateStep T fr emitted rnd fSpawn lSpawn).fireflies.all
      (fun f => decide (0 < f.life)) = true := by
    unfold animateStep
    cases fSpawn with
    | none => exact hf
    | some sp =>
      dsimp only
      rw [List.all_append]
      rw [hf]
      rfl
  have hls2 : (animateStep T fr emitted rnd fSpawn lSpawn).leaves.all
      (fun l => decide (0 < l.life)) = true := by
    unfold animateStep
    cases lSpawn with
    | none => exact hl
    | some sp =>
      dsimp only
      rw [List.all_append]
      rw [hl]
      rfl
  refine ⟨fun p => rfl, fun r f => rfl, fun l => rfl, fun p n => hiter n p,
    hp, hfs2, hls2, ?_⟩
  have e2 := hfs2
  have e3 := hls2
  unfold renderFrameLives animateStep
  unfold animateStep at e2 e3
  dsimp only at e2 e3 ⊢
  rw [List.all_append, List.all_append]
  rw [all_map_pos_lives, all_map_pos_lives, all_map_pos_lives]
  rw [hp, e2, e3]
  rfl

/-! ## Repository switching (C8) -/

/-- The mutable state touched when the active repository changes. -/
structure AppState where
  particles : List Particle
  fireflies : List Firefly
  leaves : List FallingLeaf
  growthProgress : ℚ
  lastRenderedProgress : ℚ
  selectedRepo : ℤ
  isAnimating : Bool

/-- `loadRepo` (lines 965-977): resets growth, forces a redraw, clears all
three particle collections and restarts the growth animation. -/
def loadRepo (index : ℤ) (isCustom : Bool) (s : AppState) : AppState :=
  { s with
    selectedRepo := if isCustom then -1 else index
    growthProgress := 0
    lastRenderedProgress := -1
    particles := []
    fireflies := []
    leaves := []
    isAnimating := true }

/-- The new-repository branch of `handleLoadCustomRepo` (lines 1013-1019):
it clears ONLY `particlesRef`; the firefly and falling-leaf collections
are left untouched. -/
def handleLoadCustomRepoNew (s : AppState) : AppState :=
  { s with
    selectedRepo := -1
    growthProgress := 0
    lastRenderedProgress := -1
    particles := []
    isAnimating := true }

/-- A concrete live firefly and a state holding it. -/
def fireflyDemo : Firefly :=
  Firefly.init trigDemo 0 0 none (1/2) (1/2) (1/2) (1/2) (1/2) (1/2) (1/2)

/-- A state with one live firefly, as left behind by a previous repository. -/
def appStateDemo : AppState :=
  ⟨[], [fireflyDemo], [], 1, 1, 0, false⟩

/-- C8 (the code violates the claim on one path): switching via `loadRepo`
does clear all three collections and reset growth, but loading a NEW
custom repository from a URL (the else-branch of `handleLoadCustomRepo`)
clears only the ambient particles: a firefly alive before the switch is
still in its collection afterwards, so it survives into the new tree's
frames. -/
theorem customRepo_c8_keeps_fireflies :
    (loadRepo 1 false appStateDemo).particles = [] ∧
    (loadRepo 1 false appStateDemo).fireflies = [] ∧
    (loadRepo 1 false appStateDemo).leaves = [] ∧
    (loadRepo 1 false appStateDemo).growthProgress = 0 ∧
    (handleLoadCustomRepoNew appStateDemo).growthProgress = 0 ∧
    (handleLoadCustomRepoNew appStateDemo).particles = [] ∧
    (handleLoadCustomRepoNew appStateDemo).fireflies = [fireflyDemo] ∧
    (handleLoadCustomRepoNew appStateDemo).fireflies ≠ [] := by
  refine ⟨rfl, rfl, rfl, rfl, rfl, rfl, rfl, ?_⟩
  show ([fireflyDemo] : List Firefly) ≠ []
  exact List.cons_ne_nil _ _
